import Mathlib

/-!
Verification development for the thunder loaders (`ImagesLoader` in
`imagesloader.py`) and the indexed series algebra exercised by
`test_series.py`.  Python functions are embedded as Lean functions:
Python integers become `Int`/`Nat`, numpy numeric values become `ℚ`
(exact arithmetic in place of floats), numpy arrays become `List`s, and
code that can raise becomes `Except String`.
-/

/-- Server-reported OCP project metadata, the fields of
`projInfo['dataset']` read by `ImagesLoader.fromOCP`: image sizes at the
requested resolution (`imagesize`), the slice range (`slicerange`) and the
time range (`timerange`). -/
structure OCPInfo where
  ximageSize : Int
  yimageSize : Int
  zimageStart : Int
  zimageStop : Int
  timageStart : Int
  timageStop : Int
deriving DecidableEq

/-- One tile-fetch URL as built in the `fromOCP` loop: the format arguments
of `".../npz/{t},{t+1}/{resolution}/{xMin},{xMax}/{yMin},{yMax}/{zMin},{zMax}/"`
(the server name, token and resolution are constant across the list and
omitted). -/
structure OCPUrl where
  tStart : Int
  tStop : Int
  xMin : Int
  xMax : Int
  yMin : Int
  yMax : Int
  zMin : Int
  zMax : Int
deriving DecidableEq

/-- Python lexicographic (dictionary-order) comparison `a < b` on 3-tuples
of integers, the semantics of `minBound < (0,0,zimageStart)` and the other
tuple comparisons in `fromOCP`. -/
def tripleLt (a b : Int × Int × Int) : Bool :=
  decide (a.1 < b.1) ||
    (decide (a.1 = b.1) &&
      (decide (a.2.1 < b.2.1) ||
        (decide (a.2.1 = b.2.1) && decide (a.2.2 < b.2.2))))

/-- Python `range(a, b, 1)` over integers: the list `[a, a+1, ..., b-1]`,
empty when `b ≤ a`. -/
def intRange (a b : Int) : List Int :=
  (List.range (b - a).toNat).map fun i => a + (i : Int)

/-- The `startIdx` validation step of `fromOCP`: `None` defaults to
`timageStart`; an explicit value outside `[timageStart, timageStop]`
raises. -/
def checkStart (info : OCPInfo) : Option Int → Except String Int
  | none => .ok info.timageStart
  | some s =>
    if s < info.timageStart ∨ s > info.timageStop then
      .error "startIdx out of bounds"
    else .ok s

/-- The `stopIdx` validation step of `fromOCP`: `None` defaults to
`timageStop`; an explicit value outside `[timageStart, timageStop]` raises
(the code's message again says `startIdx`). -/
def checkStop (info : OCPInfo) : Option Int → Except String Int
  | none => .ok info.timageStop
  | some s =>
    if s < info.timageStart ∨ s > info.timageStop then
      .error "startIdx out of bounds"
    else .ok s

/-- The `minBound` validation step of `fromOCP`: `None` defaults to
`(0, 0, zimageStart)`; an explicit tuple lexicographically below
`(0, 0, zimageStart)` or above `(ximageSize, yimageSize, zimageStop)`
raises. -/
def checkMin (info : OCPInfo) :
    Option (Int × Int × Int) → Except String (Int × Int × Int)
  | none => .ok (0, 0, info.zimageStart)
  | some m =>
    if tripleLt m (0, 0, info.zimageStart) ||
        tripleLt (info.ximageSize, info.yimageSize, info.zimageStop) m then
      .error "minBound is incorrect"
    else .ok m

/-- The `maxBound` validation step of `fromOCP`: `None` defaults to
`(ximageSize, yimageSize, zimageStop)`; an explicit tuple outside the same
lexicographic interval as `minBound` raises (the code's message again says
`minBound`). -/
def checkMax (info : OCPInfo) :
    Option (Int × Int × Int) → Except String (Int × Int × Int)
  | none => .ok (info.ximageSize, info.yimageSize, info.zimageStop)
  | some m =>
    if tripleLt m (0, 0, info.zimageStart) ||
        tripleLt (info.ximageSize, info.yimageSize, info.zimageStop) m then
      .error "minBound is incorrect"
    else .ok m

/-- The body of `ImagesLoader.fromOCP` after the metadata fetch: validate
`startIdx`, `stopIdx`, `minBound` and `maxBound` in that order (any failure
raises before a single tile URL is built), then build one tile URL per time
step.  Note that the URL loop is `for t in range(timageStart, timageStop, 1)`:
it iterates over the full server-reported time range and never uses the
validated `startIdx`/`stopIdx` (hence the discarded bind results below). -/
def fromOCP (info : OCPInfo) (startIdx stopIdx : Option Int)
    (minBound maxBound : Option (Int × Int × Int)) :
    Except String (List OCPUrl) :=
  (checkStart info startIdx).bind fun _ =>
    (checkStop info stopIdx).bind fun _ =>
      (checkMin info minBound).bind fun minB =>
        (checkMax info maxBound).bind fun maxB =>
          .ok ((intRange info.timageStart info.timageStop).map fun t =>
            ⟨t, t + 1, minB.1, maxB.1, minB.2.1, maxB.2.1, minB.2.2, maxB.2.2⟩)

/-- A concrete OCP server metadata record: a 2×2 image, slices `[0, 1]`,
time range `[0, 4]`. -/
def ocpInfoEx : OCPInfo := ⟨2, 2, 0, 1, 0, 4⟩

/-- A concrete OCP server metadata record with room for spatially
out-of-range bounds: a 10×10 image, slices `[0, 5]`, time range `[0, 2]`. -/
def ocpInfoEx2 : OCPInfo := ⟨10, 10, 0, 5, 0, 2⟩

/-- The starting time steps of the generated URL list (`[]` when `fromOCP`
raised). -/
def urlStarts : Except String (List OCPUrl) → List Int
  | .ok l => l.map OCPUrl.tStart
  | .error _ => []

/-- A numpy ndarray as seen by `ImagesLoader.fromArrays`: its shape, its
dtype name, and its (flattened) payload. -/
structure NpArray where
  shape : List Nat
  dtype : String
  data : List ℚ
deriving DecidableEq

/-- The validation loop of `fromArrays`: `shape`/`dtype` start as `None`,
are set from the first array, and every array (the first included, where the
check passes trivially) is compared against them. -/
def fromArraysLoop : Option (List Nat × String) → List NpArray → Except String Unit
  | _, [] => .ok ()
  | acc, a :: rest =>
    let sd := match acc with
      | none => (a.shape, a.dtype)
      | some sd => sd
    if a.shape ≠ sd.1 then .error "Arrays must all be of same shape"
    else if a.dtype ≠ sd.2 then .error "Arrays must all be of same data type"
    else fromArraysLoop (some sd) rest

/-- The body of `ImagesLoader.fromArrays`: validate uniform shape and dtype
across the arrays, then build the RDD contents `enumerate(arrays)` — one
entry per input array, keyed by its position. -/
def fromArrays (arrays : List NpArray) : Except String (List (Nat × NpArray)) :=
  (fromArraysLoop none arrays).bind fun _ => .ok arrays.enum

/-- Whether a provided `startIdx`/`stopIdx` passes the `fromOCP` range
check (an omitted bound always passes). -/
def timeOk (info : OCPInfo) : Option Int → Bool
  | none => true
  | some s => !(decide (s < info.timageStart) || decide (s > info.timageStop))

/-- Whether a provided `minBound`/`maxBound` passes the `fromOCP`
lexicographic tuple check (an omitted bound always passes). -/
def boundOk (info : OCPInfo) : Option (Int × Int × Int) → Bool
  | none => true
  | some m =>
    !(tripleLt m (0, 0, info.zimageStart) ||
      tripleLt (info.ximageSize, info.yimageSize, info.zimageStop) m)

/-- A 2×2 int16 array, for the `fromArrays` witnesses. -/
def aryA : NpArray := ⟨[2, 2], "int16", [1, 2, 3, 4]⟩

/-- A second 2×2 int16 array of the same shape and dtype as `aryA`. -/
def aryB : NpArray := ⟨[2, 2], "int16", [5, 6, 7, 8]⟩

/-- A length-3 int16 array whose shape differs from `aryA`. -/
def aryC : NpArray := ⟨[3], "int16", [1, 2, 3]⟩

/-- Arithmetic mean of a vector, numpy `mean` over exact rationals (the
empty vector gives `0`, division by zero in `ℚ`). -/
def mean (v : List ℚ) : ℚ := v.sum / v.length

/-- Sum of squared deviations from the mean, the shared numerator of the
population and sample variances. -/
def sqDevSum (v : List ℚ) : ℚ := (v.map fun x => (x - mean v) ^ 2).sum

/-- Population (ddof = 0) variance, the square of numpy's default `std`. -/
def popVar (v : List ℚ) : ℚ := sqDevSum v / v.length

/-- Sample (ddof = 1) variance, the square of the sample standard
deviation. -/
def sampleVar (v : List ℚ) : ℚ := sqDevSum v / ((v.length : ℚ) - 1)

/-- Modelled from the spec: the entry-wise core of `standardize(0)` — the
series production code is not under `src/`, only its tests.  Per the spec,
axis 0 divides each entry by that entry's own standard deviation; the
standard deviation is irrational in general, so the divisor is passed as
`sigma i` for the entry at position `i` and characterized in the theorems
by `(sigma i) ^ 2 = popVar (entry i)` (the tests pin
`series_std [1,2,3,4,5] = 1.4142135`, the population std). -/
def standardize0 (sigma : ℕ → ℚ) (vs : List (List ℚ)) : List (List ℚ) :=
  vs.enum.map fun p => p.2.map fun x => x / sigma p.1

/-- Modelled from the spec: `standardize(1)` — the series production code is
not under `src/`.  Axis 1 divides position `j` of every entry by the
across-entries standard deviation at position `j`, passed as `sigma j` and
characterized in the theorems by `(sigma j) ^ 2 = popVar (column j vs)`. -/
def standardize1 (sigma : ℕ → ℚ) (vs : List (List ℚ)) : List (List ℚ) :=
  vs.map fun v => v.enum.map fun p => p.2 / sigma p.1

/-- Column `j` of a collection: the values at position `j` across all
entries (in entry order). -/
def column (j : ℕ) (vs : List (List ℚ)) : List ℚ := vs.map fun v => v.getD j 0

/-- Modelled from the spec: the distinct index labels in order of first
occurrence — the group keys of `aggregate_by_index` (the series production
code is not under `src/`). -/
def distinctKeys (idx : List Int) : List Int :=
  idx.foldl (fun acc x => if x ∈ acc then acc else acc ++ [x]) []

/-- Modelled from the spec: the values of one entry at the positions whose
index label equals `k`, original order preserved. -/
def groupVals (idx : List Int) (k : Int) (v : List ℚ) : List ℚ :=
  ((idx.zip v).filter fun p => p.1 == k).map Prod.snd

/-- Modelled from the spec: `aggregate_by_index(fn)` — the series production
code is not under `src/`.  Index positions are grouped by equal label in
first-occurrence order and `fn` is applied to each group's values per entry,
independently; the result pairs the new index (the ordered distinct keys)
with the transformed entries. -/
def aggregate_by_index (fn : List ℚ → ℚ) (idx : List Int)
    (entries : List (ℕ × List ℚ)) : List Int × List (ℕ × List ℚ) :=
  (distinctKeys idx,
   entries.map fun e =>
     (e.1, (distinctKeys idx).map fun k => fn (groupVals idx k e.2)))

/-- Modelled from the spec: `mean_by_index()` = `stat_by_index('mean')`,
i.e. `aggregate_by_index` with the arithmetic mean as the reduction. -/
def mean_by_index (idx : List Int) (entries : List (ℕ × List ℚ)) :
    List Int × List (ℕ × List ℚ) :=
  aggregate_by_index mean idx entries

/-- Modelled from the spec: split a vector into `m` contiguous chunks of
size `len`, `m` being the fuel (the series production code is not under
`src/`). -/
def chunksFuel : ℕ → ℕ → List ℚ → List (List ℚ)
  | 0, _, _ => []
  | m + 1, len, v => v.take len :: chunksFuel m len (v.drop len)

/-- Modelled from the spec: the `L / length` contiguous chunks of size
`length` of an entry's value vector. -/
def chunks (len : ℕ) (v : List ℚ) : List (List ℚ) :=
  chunksFuel (v.length / len) len v

/-- Modelled from the spec: `group_by_panel(length)` — the series production
code is not under `src/`.  Each entry is split into contiguous chunks of
size `length`, each chunk keyed by `(original_key, panel_index)`; the new
shared index is `[0, length)`. -/
def group_by_panel (len : ℕ) (entries : List (ℕ × List ℚ)) :
    List Int × List ((ℕ × ℕ) × List ℚ) :=
  ((List.range len).map fun n => (n : Int),
   (entries.map fun e => (chunks len e.2).enum.map fun p => ((e.1, p.1), p.2)).flatten)

/-- Modelled from the spec: `mean_by_panel(length)` — the series production
code is not under `src/`.  The chunks of each entry are averaged
element-wise, producing one output entry per original key; per the tests
the output key is the one-element tuple `(original_key,)`, modelled as the
one-element list `[original_key]`. -/
def mean_by_panel (len : ℕ) (entries : List (ℕ × List ℚ)) :
    List Int × List (List ℕ × List ℚ) :=
  ((List.range len).map fun n => (n : Int),
   entries.map fun e =>
     ([e.1], (List.range len).map fun j =>
       mean ((chunks len e.2).map fun c => c.getD j 0)))

/-- Modelled from the spec: a value assigned to the `index` property —
either a bare scalar or a sequence (the series production code is not under
`src/`). -/
inductive IndexValue where
  | scalar (x : Int)
  | seq (xs : List Int)
deriving DecidableEq

/-- Modelled from the spec: the `index` setter — a sequence whose length
equals the existing index length replaces the index; a wrong-length
sequence or a bare scalar raises a dimension-mismatch `ValueError`. -/
def set_index (old : List Int) : IndexValue → Except String (List Int)
  | .scalar _ => .error "dimension mismatch: scalar index"
  | .seq xs =>
    if xs.length = old.length then .ok xs else .error "dimension mismatch"

/-- Modelled from the spec: the index observed after an assignment — the
new sequence when the setter succeeds, the unchanged old index when it
raises. -/
def index_after (old : List Int) (v : IndexValue) : List Int :=
  match set_index old v with
  | .ok xs => xs
  | .error _ => old

/-- Modelled from the spec: the default per-entry statistic of `squelch` —
the maximum absolute value of the entry (0 for an empty entry). -/
def maxAbs (v : List ℚ) : ℚ := (v.map fun x => |x|).foldr max 0

/-- Modelled from the spec: `squelch(thresh)` on one entry — every element
is zeroed when the entry's statistic is below `thresh`, otherwise the entry
is left unchanged (the series production code is not under `src/`). -/
def squelchEntry (thresh : ℚ) (v : List ℚ) : List ℚ :=
  if maxAbs v < thresh then v.map fun _ => 0 else v

/-- Modelled from the spec: `squelch(thresh)` applied entry-by-entry over
the collection. -/
def squelch (thresh : ℚ) (entries : List (ℕ × List ℚ)) : List (ℕ × List ℚ) :=
  entries.map fun e => (e.1, squelchEntry thresh e.2)

/-- The test index `[0,0,0,0,1,1,1,1,2,2,2,2]`. -/
def idx12 : List Int := [0, 0, 0, 0, 1, 1, 1, 1, 2, 2, 2, 2]

/-- The test entry `arange(12)`. -/
def v12 : List ℚ := (List.range 12).map fun n => (n : ℚ)

/-- The test entry `arange(8)`. -/
def v8 : List ℚ := (List.range 8).map fun n => (n : ℚ)

/-- Result of `fromTif`'s `multitifReader`: a single-page file yields a
plain 2-D array, a multi-page file a 3-D stack. -/
inductive TifResult where
  | twoD (img : List (List ℚ))
  | threeD (img : List (List (List ℚ)))
deriving DecidableEq

/-- numpy `dstack` on a list of equally-shaped 2-D pages: the result at
`[i][j][k]` is page `k` at `[i][j]` — pages are stacked along a trailing
third axis in list order. -/
def dstack (pages : List (List (List ℚ))) : List (List (List ℚ)) :=
  match pages with
  | [] => []
  | p :: _ =>
    (List.range p.length).map fun i =>
      (List.range ((p.getD i []).length)).map fun j =>
        pages.map fun q => (q.getD i []).getD j 0

/-- The page-reading loop of `fromTif`'s `multitifReader`, applied to the
pages the codec yields in order (the PIL `seek`/`EOFError` iteration is
external I/O): exactly one page is returned as-is, otherwise all pages are
`dstack`ed. -/
def multitifReader (pages : List (List (List ℚ))) : TifResult :=
  if pages.length = 1 then .twoD (pages.getD 0 []) else .threeD (dstack pages)

/-- A concrete two-page TIF, each page 1×2. -/
def pagesEx : List (List (List ℚ)) := [[[1, 2]], [[3, 4]]]

theorem exceptBind_ok {α β : Type} (v : α) (f : α → Except String β) :
    (Except.ok v).bind f = f v := rfl

theorem exceptBind_error {α β : Type} (e : String) (f : α → Except String β) :
    (Except.error e : Except String α).bind f = .error e := rfl

theorem isOk_bind {α β : Type} (e : Except String α) (f : α → Except String β) :
    ((e.bind f).isOk = true) ↔ ∃ v, e = .ok v ∧ (f v).isOk = true := by
  cases e with
  | ok v => simp [exceptBind_ok, Except.isOk, Except.toBool]
  | error m => simp [exceptBind_error, Except.isOk, Except.toBool]

theorem checkStart_isOk (info : OCPInfo) (o : Option Int) :
    (∃ v, checkStart info o = .ok v) ↔ timeOk info o = true := by
  cases o with
  | none => simp [checkStart, timeOk]
  | some s =>
    simp only [checkStart, timeOk]
    split_ifs with h
    · simp only [Bool.not_eq_true', Bool.or_eq_true, decide_eq_true_eq]
      constructor
      · rintro ⟨v, hv⟩; cases hv
      · intro hb
        exact absurd h (by simpa [not_or, Bool.or_eq_false_iff] using hb)
    · simp only [Bool.not_eq_true', Bool.or_eq_true, decide_eq_true_eq]
      constructor
      · intro _
        simp only [Bool.or_eq_false_iff, decide_eq_false_iff_not]
        exact ⟨fun h1 => h (Or.inl h1), fun h2 => h (Or.inr h2)⟩
      · intro _; exact ⟨s, rfl⟩

theorem checkStop_isOk (info : OCPInfo) (o : Option Int) :
    (∃ v, checkStop info o = .ok v) ↔ timeOk info o = true := by
  cases o with
  | none => simp [checkStop, timeOk]
  | some s =>
    have := checkStart_isOk info (some s)
    simpa [checkStart, checkStop] using this

theorem checkMin_isOk (info : OCPInfo) (o : Option (Int × Int × Int)) :
    (∃ v, checkMin info o = .ok v) ↔ boundOk info o = true := by
  cases o with
  | none => simp [checkMin, boundOk]
  | some m =>
    simp only [checkMin, boundOk]
    split_ifs with h
    · simp only [Bool.not_eq_true']
      constructor
      · rintro ⟨v, hv⟩; cases hv
      · intro hb; exact absurd h (by simp [hb])
    · simp only [Bool.not_eq_true']
      constructor
      · intro _
        exact Bool.not_eq_true _ ▸ (by simpa using h)
      · intro _; exact ⟨m, rfl⟩

theorem checkMax_isOk (info : OCPInfo) (o : Option (Int × Int × Int)) :
    (∃ v, checkMax info o = .ok v) ↔ boundOk info o = true := by
  cases o with
  | none => simp [checkMax, boundOk]
  | some m =>
    have := checkMin_isOk info (some m)
    simpa [checkMin, checkMax] using this

/-- C1: `fromOCP` builds its URL list with
`for t in range(timageStart, timageStop, 1)`, the full server-reported time
range, never using the validated `startIdx`/`stopIdx`.  Against a server
with time range `[0, 4]`, requesting `startIdx = 1`, `stopIdx = 3` still
generates one URL per `t = 0, 1, 2, 3` (and hence one collection entry per
such `t`), not one per time step of `[1, 3)` — contradicting the method's
own docstring ("Indices of the first and last-plus-one data file to
load"). -/
theorem c1_fromOCP_ignores_requested_range :
    urlStarts (fromOCP ocpInfoEx (some 1) (some 3) none none) = [0, 1, 2, 3] ∧
    urlStarts (fromOCP ocpInfoEx (some 1) (some 3) none none) ≠ [1, 2] := by
  exact ⟨by decide, by decide⟩

/-- C7 (amended): `fromOCP` raises before building any tile URL exactly when
a provided bound fails the code's check — a scalar range check against
`[timageStart, timageStop]` for `startIdx`/`stopIdx`, but only a
lexicographic tuple-order check against `(0,0,zimageStart)` and
`(ximageSize, yimageSize, zimageStop)` for `minBound`/`maxBound` — and
omitted bounds default to the full server-reported ranges.  A spatial bound
whose non-leading component is out of range can pass the lexicographic
check (see the counterexample theorem). -/
theorem c7_fromOCP_validation (info : OCPInfo) (startIdx stopIdx : Option Int)
    (minBound maxBound : Option (Int × Int × Int)) :
    ((fromOCP info startIdx stopIdx minBound maxBound).isOk = true ↔
      (timeOk info startIdx && timeOk info stopIdx &&
        boundOk info minBound && boundOk info maxBound) = true) ∧
    fromOCP info none none none none =
      .ok ((intRange info.timageStart info.timageStop).map fun t =>
        ⟨t, t + 1, 0, info.ximageSize, 0, info.yimageSize,
          info.zimageStart, info.zimageStop⟩) := by
  constructor
  · simp only [fromOCP]
    rw [isOk_bind]
    constructor
    · rintro ⟨v1, hv1, h2⟩
      rw [isOk_bind] at h2
      obtain ⟨v2, hv2, h3⟩ := h2
      rw [isOk_bind] at h3
      obtain ⟨v3, hv3, h4⟩ := h3
      rw [isOk_bind] at h4
      obtain ⟨v4, hv4, _⟩ := h4
      simp [Bool.and_eq_true,
        (checkStart_isOk info startIdx).mp ⟨v1, hv1⟩,
        (checkStop_isOk info stopIdx).mp ⟨v2, hv2⟩,
        (checkMin_isOk info minBound).mp ⟨v3, hv3⟩,
        (checkMax_isOk info maxBound).mp ⟨v4, hv4⟩]
    · intro h
      simp only [Bool.and_eq_true] at h
      obtain ⟨⟨⟨h1, h2⟩, h3⟩, h4⟩ := h
      obtain ⟨v1, hv1⟩ := (checkStart_isOk info startIdx).mpr h1
      obtain ⟨v2, hv2⟩ := (checkStop_isOk info stopIdx).mpr h2
      obtain ⟨v3, hv3⟩ := (checkMin_isOk info minBound).mpr h3
      obtain ⟨v4, hv4⟩ := (checkMax_isOk info maxBound).mpr h4
      refine ⟨v1, hv1, ?_⟩
      rw [isOk_bind]
      refine ⟨v2, hv2, ?_⟩
      rw [isOk_bind]
      refine ⟨v3, hv3, ?_⟩
      rw [isOk_bind]
      exact ⟨v4, hv4, rfl⟩
  · rfl

/-- C7 counterexample: against a server with `yimageSize = 10`, the bound
`minBound = (5, 20, 0)` has its y-component outside the server-reported
range `[0, 10]`, yet `fromOCP` raises no exception and produces a tile URL
list, because the validation compares tuples lexicographically and
`(5, 20, 0)` sits lexicographically inside
`[(0, 0, 0), (10, 10, 5)]`. -/
theorem c7_spatial_bound_escapes_validation :
    ((5 : Int), (20 : Int), (0 : Int)).2.1 > ocpInfoEx2.yimageSize ∧
    (fromOCP ocpInfoEx2 none none (some (5, 20, 0)) none).isOk = true := by
  exact ⟨by decide, by decide⟩

theorem fromArraysLoop_all_match (s : List Nat) (d : String) :
    ∀ rest : List NpArray, (∀ b ∈ rest, b.shape = s ∧ b.dtype = d) →
      fromArraysLoop (some (s, d)) rest = .ok () := by
  intro rest
  induction rest with
  | nil => intro _; rfl
  | cons b t ih =>
    intro h
    have hb := h b (List.mem_cons_self b t)
    simp only [fromArraysLoop, hb.1, hb.2, ne_eq, not_true_eq_false, if_false,
      ite_false]
    exact ih fun x hx => h x (List.mem_cons_of_mem _ hx)

theorem fromArraysLoop_mismatch (s : List Nat) (d : String) :
    ∀ rest : List NpArray, (∃ b ∈ rest, b.shape ≠ s ∨ b.dtype ≠ d) →
      ∃ m, fromArraysLoop (some (s, d)) rest = .error m := by
  intro rest
  induction rest with
  | nil => rintro ⟨b, hb, _⟩; exact absurd hb (List.not_mem_nil b)
  | cons b t ih =>
    rintro ⟨c, hc, hcd⟩
    by_cases h1 : b.shape = s
    · by_cases h2 : b.dtype = d
      · rcases List.mem_cons.mp hc with rfl | hct
        · rcases hcd with h | h
          · exact absurd h1 h
          · exact absurd h2 h
        · obtain ⟨m, hm⟩ := ih ⟨c, hct, hcd⟩
          exact ⟨m, by simp only [fromArraysLoop, h1, h2, ne_eq,
            not_true_eq_false, if_false, ite_false, hm]⟩
      · exact ⟨"Arrays must all be of same data type",
          by simp only [fromArraysLoop, h1, h2, ne_eq, not_true_eq_false,
            not_false_eq_true, if_false, if_true, ite_false, ite_true]⟩
    · exact ⟨"Arrays must all be of same shape",
        by simp only [fromArraysLoop, h1, ne_eq, not_false_eq_true, if_true,
          ite_true]⟩

/-- C8: `fromArrays` checks every array's shape and dtype against the first
array's and raises a `ValueError` on the first mismatch, producing no
collection; with uniform shapes and dtypes it returns `enumerate(arrays)` —
exactly one entry per input array, whose keys are the positions
`0, ..., n-1` and whose values are the arrays themselves in order. -/
theorem c8_fromArrays (a : NpArray) (rest : List NpArray) :
    ((∀ b ∈ rest, b.shape = a.shape ∧ b.dtype = a.dtype) →
      fromArrays (a :: rest) = .ok ((a :: rest).enum) ∧
      ((a :: rest).enum).map Prod.snd = a :: rest ∧
      ((a :: rest).enum).map Prod.fst = List.range (a :: rest).length) ∧
    ((∃ b ∈ rest, b.shape ≠ a.shape ∨ b.dtype ≠ a.dtype) →
      ∃ m, fromArrays (a :: rest) = .error m) := by
  constructor
  · intro h
    refine ⟨?_, List.enum_map_snd _, List.enum_map_fst _⟩
    have hloop : fromArraysLoop none (a :: rest) = .ok () := by
      simp only [fromArraysLoop, ne_eq, not_true_eq_false, if_false, ite_false]
      exact fromArraysLoop_all_match a.shape a.dtype rest h
    simp only [fromArrays, hloop, exceptBind_ok]
  · rintro ⟨b, hb, hbd⟩
    obtain ⟨m, hm⟩ := fromArraysLoop_mismatch a.shape a.dtype rest ⟨b, hb, hbd⟩
    have hloop : fromArraysLoop none (a :: rest) = .error m := by
      simp only [fromArraysLoop, ne_eq, not_true_eq_false, if_false, ite_false]
      exact hm
    exact ⟨m, by simp only [fromArrays, hloop, exceptBind_error]⟩

/-- C8 witness: two concrete 2×2 int16 arrays load into entries keyed 0 and
1; a 2×2 array together with a length-3 array is rejected. -/
theorem c8_fromArrays_witness :
    fromArrays [aryA, aryB] = .ok [(0, aryA), (1, aryB)] ∧
    ∃ m, fromArrays [aryA, aryC] = .error m := by
  constructor
  · exact ((c8_fromArrays aryA [aryB]).1 (by decide)).1.trans (by rfl)
  · exact (c8_fromArrays aryA [aryC]).2 ⟨aryC, by decide, by decide⟩

theorem sum_map_div (v : List ℚ) (c : ℚ) :
    (v.map fun x => x / c).sum = v.sum / c := by
  induction v with
  | nil => simp
  | cons a t ih => simp [ih, add_div]

theorem mean_map_div (v : List ℚ) (c : ℚ) :
    mean (v.map fun x => x / c) = mean v / c := by
  simp only [mean, sum_map_div, List.length_map]
  rw [div_right_comm]

theorem sqDevSum_map_div (v : List ℚ) (c : ℚ) :
    sqDevSum (v.map fun x => x / c) = sqDevSum v / c ^ 2 := by
  unfold sqDevSum
  rw [mean_map_div, List.map_map]
  have h1 : ((fun x => (x - mean v / c) ^ 2) ∘ fun x => x / c) =
      fun x => ((x - mean v) ^ 2) / c ^ 2 := by
    funext x
    rw [Function.comp_apply, div_sub_div_same, div_pow]
  rw [h1]
  have h2 := sum_map_div (v.map fun x => (x - mean v) ^ 2) (c ^ 2)
  rw [List.map_map] at h2
  exact h2

theorem popVar_map_div (v : List ℚ) (c : ℚ) :
    popVar (v.map fun x => x / c) = popVar v / c ^ 2 := by
  unfold popVar
  rw [sqDevSum_map_div, List.length_map, div_right_comm]

theorem popVar_standardized (v : List ℚ) (c : ℚ) (h0 : c ≠ 0)
    (h : c ^ 2 = popVar v) : popVar (v.map fun x => x / c) = 1 := by
  rw [popVar_map_div, ← h, div_self (pow_ne_zero 2 h0)]

theorem enum_map_getD (f : ℕ × ℚ → ℚ) (v : List ℚ) (j : ℕ) (h : j < v.length)
    (d : ℚ) : (v.enum.map f).getD j d = f (j, v.getD j 0) := by
  have hj : j < (v.enum.map f).length := by
    simpa [List.length_map, List.enum_length] using h
  have hj2 : j < v.enum.length := by simpa [List.enum_length] using h
  rw [List.getD_eq_getElem _ _ hj, List.getElem_map, List.getElem_enum,
    List.getD_eq_getElem _ _ h]

theorem column_standardize1 (sigma : ℕ → ℚ) (vs : List (List ℚ)) (j : ℕ)
    (h : ∀ v ∈ vs, j < v.length) :
    column j (standardize1 sigma vs) = (column j vs).map fun x => x / sigma j := by
  unfold column standardize1
  rw [List.map_map, List.map_map]
  refine List.map_congr_left ?_
  intro v hv
  simp only [Function.comp_apply]
  rw [enum_map_getD _ v j (h v hv)]

/-- C2 (amended): the thunder `std` is numpy's default population
(ddof = 0) standard deviation — the tests pin
`series_std [1,2,3,4,5] = 1.4142135 = √2` — so for non-constant input the
`standardize` output has population standard deviation exactly 1 (in exact
arithmetic): per entry for axis 0, per position across entries for axis 1.
Non-constancy is expressed by the standard deviation `sigma` being nonzero;
the sample (ddof = 1) standard deviation of the output is instead
`√(n/(n-1))` (see the counterexample theorem). -/
theorem c2_standardize_popvar_one (vs : List (List ℚ)) (L : ℕ)
    (sigma0 sigma1 : ℕ → ℚ)
    (h0 : ∀ p ∈ vs.enum, sigma0 p.1 ≠ 0 ∧ (sigma0 p.1) ^ 2 = popVar p.2)
    (hL : ∀ v ∈ vs, v.length = L)
    (h1 : ∀ j < L, sigma1 j ≠ 0 ∧ (sigma1 j) ^ 2 = popVar (column j vs)) :
    (∀ w ∈ standardize0 sigma0 vs, popVar w = 1) ∧
    (∀ j < L, popVar (column j (standardize1 sigma1 vs)) = 1) := by
  constructor
  · intro w hw
    obtain ⟨p, hp, rfl⟩ := List.mem_map.mp hw
    exact popVar_standardized p.2 (sigma0 p.1) (h0 p hp).1 (h0 p hp).2
  · intro j hj
    rw [column_standardize1 sigma1 vs j fun v hv => (hL v hv) ▸ hj]
    exact popVar_standardized (column j vs) (sigma1 j) (h1 j hj).1
      (h1 j hj).2

/-- C2 counterexample: the non-constant entry `[0, 2]` has population
standard deviation exactly 1, so `standardize(0)` returns it unchanged;
its sample (ddof = 1) variance is 2, i.e. the sample standard deviation of
the standardized output is `√2 ≈ 1.414`, not ≈ 1 within floating
tolerance. -/
theorem c2_sample_std_not_one :
    popVar [(0 : ℚ), 2] ≠ 0 ∧
    (1 : ℚ) ^ 2 = popVar [(0 : ℚ), 2] ∧
    standardize0 (fun _ => 1) [[(0 : ℚ), 2]] = [[0, 2]] ∧
    sampleVar [(0 : ℚ), 2] = 2 := by
  refine ⟨?_, ?_, ?_, ?_⟩
  · norm_num [popVar, sqDevSum, mean]
  · norm_num [popVar, sqDevSum, mean]
  · norm_num [standardize0, List.enum, List.enumFrom]
  · norm_num [sampleVar, sqDevSum, mean]

/-- C2 witness: the two-entry collection `[[0,2],[2,0]]` is non-constant
per entry and per position, all standard deviations are 1, and the
standardized outputs indeed have population variance 1. -/
theorem c2_standardize_witness :
    (∀ p ∈ ([[(0 : ℚ), 2], [2, 0]] : List (List ℚ)).enum,
      (1 : ℚ) ≠ 0 ∧ (1 : ℚ) ^ 2 = popVar p.2) ∧
    (∀ w ∈ standardize0 (fun _ => 1) [[(0 : ℚ), 2], [2, 0]], popVar w = 1) ∧
    (∀ j < 2, popVar (column j (standardize1 (fun _ => 1) [[(0 : ℚ), 2], [2, 0]])) = 1) := by
  refine ⟨?_, ?_, ?_⟩
  · norm_num [List.enum, List.enumFrom, popVar, sqDevSum, mean]
  · exact (c2_standardize_popvar_one [[(0 : ℚ), 2], [2, 0]] 2
      (fun _ => 1) (fun _ => 1)
      (by norm_num [List.enum, List.enumFrom, popVar, sqDevSum, mean])
      (by norm_num)
      (by intro j hj; interval_cases j <;>
        norm_num [column, popVar, sqDevSum, mean])).1
  · exact (c2_standardize_popvar_one [[(0 : ℚ), 2], [2, 0]] 2
      (fun _ => 1) (fun _ => 1)
      (by norm_num [List.enum, List.enumFrom, popVar, sqDevSum, mean])
      (by norm_num)
      (by intro j hj; interval_cases j <;>
        norm_num [column, popVar, sqDevSum, mean])).2

/-- C3: `aggregate_by_index(fn)` groups index positions by equal label in
order of first occurrence, applies `fn` per group per entry, and returns a
collection whose index is the ordered distinct group keys and whose values
have one element per group; concretely, for index
`[0,0,0,0,1,1,1,1,2,2,2,2]` over the single entry `arange(12)`,
`aggregate_by_index(sum)` yields values `[6, 22, 38]` with index
`[0, 1, 2]`, and `mean_by_index()` yields values `[1.5, 5.5, 9.5]`. -/
theorem c3_aggregate_by_index :
    (∀ fn (idx : List Int) entries,
      (aggregate_by_index fn idx entries).1 = distinctKeys idx ∧
      ∀ e ∈ (aggregate_by_index fn idx entries).2,
        e.2.length = (distinctKeys idx).length) ∧
    distinctKeys idx12 = [0, 1, 2] ∧
    (aggregate_by_index List.sum idx12 [(0, v12)]).2 = [(0, [6, 22, 38])] ∧
    (mean_by_index idx12 [(0, v12)]).2 = [(0, [3/2, 11/2, 19/2])] := by
  refine ⟨?_, by decide, ?_, ?_⟩
  · intro fn idx entries
    refine ⟨rfl, ?_⟩
    intro e he
    obtain ⟨a, _, rfl⟩ := List.mem_map.mp he
    simp
  · norm_num [aggregate_by_index, distinctKeys, groupVals, idx12, v12,
      List.range_succ]
  · norm_num [mean_by_index, aggregate_by_index, distinctKeys, groupVals,
      idx12, v12, mean, List.range_succ]

/-- C3 witness: the single transformed entry of the concrete
`aggregate_by_index(sum)` instance indeed has one value per group. -/
theorem c3_aggregate_by_index_witness :
    ((0 : ℕ), [(6 : ℚ), 22, 38]) ∈ (aggregate_by_index List.sum idx12 [(0, v12)]).2 ∧
    ([(6 : ℚ), 22, 38] : List ℚ).length = (distinctKeys idx12).length := by
  have hmem : ((0 : ℕ), [(6 : ℚ), 22, 38]) ∈ (aggregate_by_index List.sum idx12 [(0, v12)]).2 := by
    rw [c3_aggregate_by_index.2.2.1]
    exact List.mem_singleton.mpr rfl
  exact ⟨hmem, (c3_aggregate_by_index.1 List.sum idx12 [(0, v12)]).2 _ hmem⟩

theorem chunksFuel_length (len : ℕ) :
    ∀ (m : ℕ) (v : List ℚ), (chunksFuel m len v).length = m := by
  intro m
  induction m with
  | zero => intro v; rfl
  | succ m ih => intro v; simp only [chunksFuel, List.length_cons, ih]

theorem chunksFuel_flatten (len : ℕ) :
    ∀ (m : ℕ) (v : List ℚ), v.length = m * len →
      (chunksFuel m len v).flatten = v := by
  intro m
  induction m with
  | zero =>
    intro v hv
    rw [Nat.zero_mul] at hv
    rw [List.length_eq_zero.mp hv]
    rfl
  | succ m ih =>
    intro v hv
    have hdrop : (v.drop len).length = m * len := by
      rw [List.length_drop, hv, Nat.succ_mul]; omega
    simp only [chunksFuel, List.flatten_cons, ih (v.drop len) hdrop,
      List.take_append_drop]

theorem chunksFuel_chunk_length (len : ℕ) :
    ∀ (m : ℕ) (v : List ℚ), v.length = m * len →
      ∀ c ∈ chunksFuel m len v, c.length = len := by
  intro m
  induction m with
  | zero => intro v _ c hc; simp [chunksFuel] at hc
  | succ m ih =>
    intro v hv c hc
    rcases List.mem_cons.mp hc with rfl | h
    · rw [List.length_take, hv, Nat.succ_mul]; omega
    · exact ih (v.drop len) (by rw [List.length_drop, hv, Nat.succ_mul]; omega) c h

theorem chunks_eq_chunksFuel (len m : ℕ) (v : List ℚ) (h0 : 0 < len)
    (hv : v.length = m * len) : chunks len v = chunksFuel m len v := by
  unfold chunks
  rw [hv, Nat.mul_div_cancel m h0]

/-- C4: with entry length `L = m * length`, `group_by_panel(length)` splits
each entry into `m` contiguous chunks of size `length` (their concatenation
restores the entry) keyed by `(original_key, panel_index)`, with the index
reset to `[0, length)`; `mean_by_panel(length)` averages the chunks
element-wise, one output entry per original key.  Concretely, for the single
entry `arange(8)`, `group_by_panel(4)` yields keys `[(0,0), (0,1)]` with
values `[[0,1,2,3], [4,5,6,7]]`, and `mean_by_panel(4)` yields the single
entry `[2,3,4,5]`. -/
theorem c4_group_by_panel (len m : ℕ) (v : List ℚ)
    (h0 : 0 < len) (hv : v.length = m * len) :
    ((chunks len v).length = m ∧ (chunks len v).flatten = v ∧
      ∀ c ∈ chunks len v, c.length = len) ∧
    ((group_by_panel 4 [(0, v8)]).2.map Prod.fst = [(0, 0), (0, 1)] ∧
     (group_by_panel 4 [(0, v8)]).2.map Prod.snd = [[0, 1, 2, 3], [4, 5, 6, 7]] ∧
     (group_by_panel 4 [(0, v8)]).1 = [0, 1, 2, 3]) ∧
    ((mean_by_panel 4 [(0, v8)]).2 = [([0], [2, 3, 4, 5])] ∧
     ∀ len2 entries, (mean_by_panel len2 entries).2.length = entries.length) := by
  refine ⟨⟨?_, ?_, ?_⟩, ⟨?_, ?_, ?_⟩, ?_, ?_⟩
  · rw [chunks_eq_chunksFuel len m v h0 hv]; exact chunksFuel_length len m v
  · rw [chunks_eq_chunksFuel len m v h0 hv]; exact chunksFuel_flatten len m v hv
  · rw [chunks_eq_chunksFuel len m v h0 hv]; exact chunksFuel_chunk_length len m v hv
  · norm_num [group_by_panel, chunks, chunksFuel, v8, List.range_succ,
      List.enum, List.enumFrom]
  · norm_num [group_by_panel, chunks, chunksFuel, v8, List.range_succ,
      List.enum, List.enumFrom]
  · decide
  · norm_num [mean_by_panel, chunks, chunksFuel, v8, mean, List.range_succ]
  · intro len2 entries
    simp [mean_by_panel]

/-- C4 witness: the concrete entry `arange(8)` with `length = 4` satisfies
the divisibility hypothesis and splits into 2 chunks of length 4 whose
concatenation restores the entry. -/
theorem c4_group_by_panel_witness :
    (0 < 4 ∧ v8.length = 2 * 4) ∧
    (chunks 4 v8).length = 2 ∧ (chunks 4 v8).flatten = v8 := by
  refine ⟨⟨by decide, by decide⟩, ?_, ?_⟩
  · exact ((c4_group_by_panel 4 2 v8 (by decide) (by decide)).1).1
  · exact ((c4_group_by_panel 4 2 v8 (by decide) (by decide)).1).2.1

/-- C10: `mean_by_panel` keys its output entries by the one-element tuple
`(original_key,)` — modelled as the one-element list `[original_key]` —
rather than by the bare original key: the collection with single key `0`
yields key `(0,)`. -/
theorem c10_mean_by_panel_keys :
    (∀ len entries, (mean_by_panel len entries).2.map Prod.fst =
      entries.map fun e => [e.1]) ∧
    (mean_by_panel 4 [((0 : ℕ), v8)]).2.map Prod.fst = [[0]] := by
  constructor
  · intro len entries
    unfold mean_by_panel
    rw [List.map_map]
    rfl
  · unfold mean_by_panel
    rw [List.map_map]
    rfl

/-- C5: assigning a sequence of the existing index length to `index`
succeeds and is observed by subsequent reads; a sequence of a different
length raises a dimension-mismatch error, and a bare scalar raises a
dimension-mismatch error; in both error cases the observed index is
unchanged. -/
theorem c5_index_setting (old xs : List Int) (x : Int) :
    (xs.length = old.length →
      set_index old (.seq xs) = .ok xs ∧ index_after old (.seq xs) = xs) ∧
    (xs.length ≠ old.length →
      set_index old (.seq xs) = .error "dimension mismatch" ∧
      index_after old (.seq xs) = old) ∧
    (set_index old (.scalar x) = .error "dimension mismatch: scalar index" ∧
      index_after old (.scalar x) = old) := by
  refine ⟨?_, ?_, rfl, rfl⟩
  · intro h
    constructor
    · simp [set_index, h]
    · simp [index_after, set_index, h]
  · intro h
    constructor
    · simp [set_index, h]
    · simp [index_after, set_index, h]

/-- C5 witness: on the index `[0, 1, 2]` of the test collection, assigning
`[3, 2, 1]` succeeds and is observed; assigning `[1, 2]` and assigning the
scalar `5` both raise and leave the index unchanged. -/
theorem c5_index_setting_witness :
    (([3, 2, 1] : List Int).length = ([0, 1, 2] : List Int).length ∧
      index_after [0, 1, 2] (.seq [3, 2, 1]) = [3, 2, 1]) ∧
    (([1, 2] : List Int).length ≠ ([0, 1, 2] : List Int).length ∧
      index_after [0, 1, 2] (.seq [1, 2]) = [0, 1, 2]) ∧
    index_after [0, 1, 2] (.scalar 5) = [0, 1, 2] := by
  refine ⟨⟨by decide, ?_⟩, ⟨by decide, ?_⟩, ?_⟩
  · exact ((c5_index_setting [0, 1, 2] [3, 2, 1] 5).1 (by decide)).2
  · exact ((c5_index_setting [0, 1, 2] [1, 2] 5).2.1 (by decide)).2
  · exact (c5_index_setting [0, 1, 2] [1, 2] 5).2.2.2

theorem maxAbs_nonneg (v : List ℚ) : 0 ≤ maxAbs v := by
  induction v with
  | nil => simp [maxAbs]
  | cons a t ih =>
    simp only [maxAbs, List.map_cons, List.foldr_cons] at ih ⊢
    exact le_trans ih (le_max_right _ _)

theorem maxAbs_map_zero (v : List ℚ) : maxAbs (v.map fun _ => 0) = 0 := by
  induction v with
  | nil => rfl
  | cons a t ih =>
    simp only [maxAbs, List.map_cons, List.map_map, List.foldr_cons] at ih ⊢
    rw [ih]
    simp

theorem squelchEntry_idem (thresh : ℚ) (v : List ℚ) :
    squelchEntry thresh (squelchEntry thresh v) = squelchEntry thresh v := by
  by_cases h : maxAbs v < thresh
  · have hz : maxAbs (v.map fun _ => 0) < thresh := by
      rw [maxAbs_map_zero]
      exact lt_of_le_of_lt (maxAbs_nonneg v) h
    simp only [squelchEntry, if_pos h, if_pos hz, List.map_map]
    rfl
  · simp only [squelchEntry, if_neg h]

/-- C6: `squelch(thresh)` zeroes every element of every entry whose maximum
absolute value is below `thresh`, leaves entries at or above `thresh`
unchanged, and is idempotent: applying it twice equals applying it once. -/
theorem c6_squelch (thresh : ℚ) (entries : List (ℕ × List ℚ)) (v : List ℚ) :
    squelch thresh (squelch thresh entries) = squelch thresh entries ∧
    (maxAbs v < thresh → squelchEntry thresh v = List.replicate v.length 0) ∧
    (thresh ≤ maxAbs v → squelchEntry thresh v = v) := by
  refine ⟨?_, ?_, ?_⟩
  · unfold squelch
    rw [List.map_map]
    refine List.map_congr_left ?_
    intro e _
    simp only [Function.comp_apply]
    exact congrArg (Prod.mk e.1) (squelchEntry_idem thresh e.2)
  · intro h
    simp only [squelchEntry, if_pos h]
    exact List.map_const' v 0
  · intro h
    simp only [squelchEntry, if_neg (not_lt.mpr h)]

/-- C6 witness: with threshold 3, the entry `[1, 2]` (max abs 2) is zeroed
and the entry `[3, 4]` (max abs 4) is unchanged, matching the test
`squelch(3)` scenario. -/
theorem c6_squelch_witness :
    (maxAbs [(1 : ℚ), 2] < 3 ∧ squelchEntry 3 [(1 : ℚ), 2] = List.replicate 2 0) ∧
    ((3 : ℚ) ≤ maxAbs [(3 : ℚ), 4] ∧ squelchEntry 3 [(3 : ℚ), 4] = [3, 4]) := by
  constructor
  · have h : maxAbs [(1 : ℚ), 2] < 3 := by
      norm_num [maxAbs]
    exact ⟨h, (c6_squelch 3 [] [(1 : ℚ), 2]).2.1 h⟩
  · have h : (3 : ℚ) ≤ maxAbs [(3 : ℚ), 4] := by
      norm_num [maxAbs]
    exact ⟨h, (c6_squelch 3 [] [(3 : ℚ), 4]).2.2 h⟩

theorem getD_range_map {β : Type} (g : ℕ → β) (n i : ℕ) (d : β) (h : i < n) :
    ((List.range n).map g).getD i d = g i := by
  have h2 : i < ((List.range n).map g).length := by simpa using h
  rw [List.getD_eq_getElem _ _ h2, List.getElem_map, List.getElem_range]

theorem getD_map_of_lt {α β : Type} (f : α → β) (l : List α) (i : ℕ) (d : β)
    (dd : α) (h : i < l.length) : (l.map f).getD i d = f (l.getD i dd) := by
  have h2 : i < (l.map f).length := by simpa using h
  rw [List.getD_eq_getElem _ _ h2, List.getElem_map, List.getD_eq_getElem _ _ h]

theorem getD_mem_of_lt {α : Type} (l : List α) (i : ℕ) (d : α)
    (h : i < l.length) : l.getD i d ∈ l := by
  rw [List.getD_eq_getElem _ _ h]
  exact List.getElem_mem h

/-- C9: `multitifReader` returns a file with exactly one page as that plain
2-D page (no trailing singleton axis), while a file with more than one page
becomes the single 3-D `dstack` of all pages, whose element at
`[i][j][k]` is page `k` at `[i][j]` — the pages are stacked along the
trailing third axis in page order. -/
theorem c9_multitif (pages : List (List (List ℚ))) (r c : ℕ)
    (hshape : ∀ q ∈ pages, q.length = r ∧ ∀ row ∈ q, row.length = c) :
    (∀ p, multitifReader [p] = .twoD p) ∧
    (1 < pages.length →
      multitifReader pages = .threeD (dstack pages) ∧
      ∀ i j k, i < r → j < c → k < pages.length →
        (((dstack pages).getD i []).getD j []).getD k 0 =
          ((pages.getD k []).getD i []).getD j 0) := by
  constructor
  · intro p; rfl
  · intro hlen
    constructor
    · unfold multitifReader
      rw [if_neg (by omega)]
    · intro i j k hi hj hk
      cases pages with
      | nil => simp at hlen
      | cons p rest =>
        have hp : p.length = r ∧ ∀ row ∈ p, row.length = c :=
          hshape p (List.mem_cons_self p rest)
        have hir : i < p.length := by rw [hp.1]; exact hi
        have hrow : (p.getD i []).length = c :=
          hp.2 (p.getD i []) (getD_mem_of_lt p i [] hir)
        have hjc : j < (p.getD i []).length := by rw [hrow]; exact hj
        unfold dstack
        rw [getD_range_map _ p.length i [] hir,
          getD_range_map _ (p.getD i []).length j [] hjc,
          getD_map_of_lt _ (p :: rest) k 0 [] hk]

/-- C9 witness: the two-page 1×2 TIF `[[[1,2]], [[3,4]]]` is stacked into a
3-D array whose trailing axis runs over the pages, and a single page is
returned as a plain 2-D array. -/
theorem c9_multitif_witness :
    multitifReader [[[(1 : ℚ), 2]]] = .twoD [[1, 2]] ∧
    multitifReader pagesEx = .threeD (dstack pagesEx) ∧
    (((dstack pagesEx).getD 0 []).getD 1 []).getD 1 0 =
      ((pagesEx.getD 1 []).getD 0 []).getD 1 0 := by
  refine ⟨?_, ?_, ?_⟩
  · exact (c9_multitif pagesEx 1 2 (by decide)).1 [[1, 2]]
  · exact ((c9_multitif pagesEx 1 2 (by decide)).2 (by decide)).1
  · exact ((c9_multitif pagesEx 1 2 (by decide)).2 (by decide)).2 0 1 1
      (by decide) (by decide) (by decide)
